import Mathlib

/-!
Verification of the content-lifecycle engine of `jekyll_compose_modern.py`
(slug derivation, file creation, draft publishing, post unpublishing and
collection discovery) against its natural-language specification.

Strings are modelled as Lean `String`s; the character-level operations of
the Python code (regex substitutions, `str.strip`, `str.split`,
`str.replace`) are embedded as executable functions on `List Char`.
The file system visible to the engine is modelled as a finite map from
root-relative paths to file contents together with the set of existing
directories.
-/

namespace JekyllCompose

/-- Python `\s` on ASCII input: space, tab, newline, carriage return,
vertical tab, form feed. -/
def isSpaceChar (c : Char) : Bool :=
  c == ' ' || c == '\t' || c == '\n' || c == '\r' || c == '\x0b' || c == '\x0c'

/-- Python `\w` on ASCII input: letters, digits and the underscore. -/
def isWordChar (c : Char) : Bool :=
  c.isAlphanum || c == '_'

/-- A character matched by the character class `[-\s]` of the second
regex in `slugify`. -/
def isSepChar (c : Char) : Bool :=
  c == '-' || isSpaceChar c

/-- A character NOT removed by `re.sub(r'[^\w\s-]', '', ...)` in
`slugify` (line 493): word characters, whitespace and the dash. -/
def keepChar (c : Char) : Bool :=
  isWordChar c || isSpaceChar c || c == '-'

/-- The character kept by the removal step as the specification words it
(§4.1): letter, digit, underscore or whitespace — the dash is absent. -/
def keepCharSpec (c : Char) : Bool :=
  c.isAlphanum || c == '_' || isSpaceChar c

/-- The character kept by the removal step after amendment: letter,
digit, underscore, whitespace or dash. -/
def keepCharAmended (c : Char) : Bool :=
  (c.isAlphanum || c == '_' || isSpaceChar c) || c == '-'

/-- `re.sub(r'[-\s]+', '-', ...)` (line 494): every maximal run of
whitespace and/or dashes becomes a single dash. -/
def collapseSeps : List Char → List Char
  | [] => []
  | c :: cs =>
    if isSepChar c then
      if (collapseSeps cs).head? = some '-' then collapseSeps cs
      else '-' :: collapseSeps cs
    else c :: collapseSeps cs

/-- Python `str.strip(chars)`: remove the characters satisfying `p` from
both ends of the list. -/
def pyStrip (p : Char → Bool) (l : List Char) : List Char :=
  (((l.dropWhile p).reverse.dropWhile p)).reverse

/-- The character stripped by `.strip('-')` (line 494). -/
def isDashChar (c : Char) : Bool := c == '-'

/-- `slugify` of the source (lines 491-494) on character lists:
lower-case, drop characters outside `[\w\s-]`, collapse `[-\s]+` runs to
a single dash, strip dashes from both ends. -/
def slugifyChars (l : List Char) : List Char :=
  pyStrip isDashChar (collapseSeps ((l.map Char.toLower).filter keepChar))

/-- `slugify(title)` of the source (lines 491-494). -/
def slugify (s : String) : String :=
  String.mk (slugifyChars s.data)

/-- `slugify` as the specification words it (§4.1 steps, where the
removal step keeps only letters, digits, underscores and whitespace). -/
def slugifySpecWords (s : String) : String :=
  String.mk (pyStrip isDashChar (collapseSeps ((s.data.map Char.toLower).filter keepCharSpec)))

/-- `slugify` as the amended specification words it: the removal step
additionally keeps the dash. -/
def slugifySpecAmended (s : String) : String :=
  String.mk (pyStrip isDashChar (collapseSeps ((s.data.map Char.toLower).filter keepCharAmended)))

/-- Python `str.split(sep)` with a one-character separator and no limit. -/
def splitOnChar (sep : Char) : List Char → List (List Char)
  | [] => [[]]
  | c :: cs =>
    if c = sep then [] :: splitOnChar sep cs
    else
      match splitOnChar sep cs with
      | [] => [[c]]
      | h :: t => (c :: h) :: t

/-- Python `str.split(sep, maxsplit)` with a one-character separator:
split at the leftmost occurrences only, at most `maxsplit` times. -/
def splitMax (sep : Char) : Nat → List Char → List (List Char)
  | _, [] => [[]]
  | 0, l => [l]
  | n + 1, c :: cs =>
    if c = sep then [] :: splitMax sep n cs
    else
      match splitMax sep (n + 1) cs with
      | [] => [[c]]
      | h :: t => (c :: h) :: t

/-- Python `needle in haystack` on strings: substring containment. -/
def isSubChars (n : List Char) : List Char → Bool
  | [] => n.isEmpty
  | c :: cs => n.isPrefixOf (c :: cs) || isSubChars n cs

/-- Python `haystack.replace(old, new, 1)`: replace the leftmost
occurrence of `old` (if any) by `new`. -/
def replaceFirstChars (old new : List Char) : List Char → List Char
  | [] => if old.isEmpty then new else []
  | c :: cs =>
    if old.isPrefixOf (c :: cs) then new ++ (c :: cs).drop old.length
    else c :: replaceFirstChars old new cs

/-- A quote character stripped by `.strip('"\x27')` in `publish_draft`
(line 600): the double quote or the apostrophe (code point 39). -/
def isQuoteChar (c : Char) : Bool :=
  c == '"' || c.toNat == 39

/-- Python `str.strip()` (whitespace from both ends). -/
def stripWS (s : String) : String :=
  String.mk (pyStrip isSpaceChar s.data)

/-- `pathlib.PurePath.stem`: the filename without its last suffix; the
suffix starts at the last dot provided that dot is neither the first nor
the last character of the name. -/
def stemChars (l : List Char) : List Char :=
  match l.reverse.findIdx? (fun c => c == '.') with
  | none => l
  | some j =>
    let i := l.length - 1 - j
    if 0 < i ∧ i < l.length - 1 then l.take i else l

/-- The group captured by `title:\s*(.+)$` at a position right after
`title:`, where `rest` runs to the end of the whole string.  `\s*` is
greedy and may consume newlines; `.` does not match newlines; `$`
matches before a newline or at the end.  So: if something non-whitespace
follows, the group runs from the first non-whitespace character to its
line's end; if only whitespace follows and some of it is not a newline,
backtracking makes the group the last non-newline character; if only
newlines (or nothing) follow, there is no match. -/
def regexTitleGroup (rest : List Char) : Option (List Char) :=
  let r := rest.dropWhile isSpaceChar
  if !r.isEmpty then some (r.takeWhile (fun c => !(c == '\n')))
  else
    match (rest.filter (fun c => !(c == '\n'))).getLast? with
    | some c => some [c]
    | none => none

/-- `re.search(r'^title:\s*(.+)$', content, re.MULTILINE)` (line 599):
try the match at every line start, leftmost first.  The scan advances
one character at a time; `atStart` records whether the current position
is a line start.  When `title:` is found at a line start but only
newlines follow it, the regex fails there, and since nothing but
newlines remains no later position can match either, so the scan stops. -/
def findTitleAux : Bool → List Char → Option (List Char)
  | _, [] => none
  | atStart, c :: cs =>
    if atStart && "title:".data.isPrefixOf (c :: cs) then regexTitleGroup ((c :: cs).drop 6)
    else findTitleAux (c == '\n') cs

def findTitleValue (l : List Char) : Option (List Char) :=
  findTitleAux true l

/-- Title recovery of `publish_draft` (lines 599-600): the regex group,
`.strip().strip('"\x27')`-ed, else the draft filename's stem. -/
def recoveredTitle (content name : String) : String :=
  match findTitleValue content.data with
  | some v => String.mk (pyStrip isQuoteChar (pyStrip isSpaceChar v))
  | none => String.mk (stemChars name.data)

/-- The date-insertion step of `publish_draft` (lines 606-608): if the
substring `date:` occurs nowhere in the content, replace the first
occurrence of `---\n` by `---\ndate: {today}\n`; otherwise keep the
content unchanged. -/
def publishContent (content today : String) : String :=
  if isSubChars "date:".data content.data then content
  else String.mk (replaceFirstChars "---\n".data ("---\ndate: " ++ today ++ "\n").data content.data)

/-- The file system visible to the engine: root-relative directory names
and a finite map from root-relative paths to file contents. -/
structure FS where
  dirs : List String
  files : List (String × String)
deriving DecidableEq

def FS.read (fs : FS) (p : String) : Option String :=
  (fs.files.find? (fun e => e.1 == p)).map (fun e => e.2)

def FS.write (fs : FS) (p c : String) : FS :=
  { fs with files := (p, c) :: fs.files.filter (fun e => !(e.1 == p)) }

def FS.delete (fs : FS) (p : String) : FS :=
  { fs with files := fs.files.filter (fun e => !(e.1 == p)) }

/-- `Path.mkdir(exist_ok=True)`. -/
def FS.mkdir (fs : FS) (d : String) : FS :=
  if d ∈ fs.dirs then fs else { fs with dirs := d :: fs.dirs }

/-- Python truthiness of the optional `date` argument of `create_file`:
`None` and the empty string are both falsy. -/
def truthy : Option String → Option String
  | none => none
  | some d => if d = "" then none else some d

/-- The filename chosen by `create_file` (line 503):
`{date}-{slug}.md` when the date is truthy, else `{slug}.md`. -/
def createFileName (title : String) (date : Option String) : String :=
  match truthy date with
  | some d => d ++ "-" ++ slugify title ++ ".md"
  | none => slugify title ++ ".md"

/-- The text written by `create_file` (lines 510-515): front matter with
`title` always, `date` when truthy, and nothing after the closing
delimiter and blank line. -/
def createContent (title : String) (date : Option String) : String :=
  "---\ntitle: " ++ title ++ "\n" ++
    (match truthy date with
     | some d => "date: " ++ d ++ "\n"
     | none => "") ++ "---\n\n"

/-- `create_file(folder, title, date)` (lines 496-524): make the folder,
compute the slugged filename, ask for confirmation when the target
exists (the caller's answer is the `confirmOverwrite` argument), then
write the front-matter template.  Returns the created path (`none` when
aborted) and the resulting file system. -/
def createFile (fs : FS) (folder title : String) (date : Option String)
    (confirmOverwrite : Bool) : Option String × FS :=
  let fs1 := fs.mkdir folder
  let path := folder ++ "/" ++ createFileName title date
  if (fs1.read path).isSome && !confirmOverwrite then (none, fs1)
  else (some path, fs1.write path (createContent title date))

/-- `handle_form_submit` (lines 377-388) followed by the create
callback: every field value is stripped, an empty `Title` aborts with a
validation warning and no callback call, otherwise `create_file` runs
on the stripped title. -/
def handleFormSubmit (fs : FS) (folder rawTitle : String) (date : Option String)
    (confirmOverwrite : Bool) : Option String × FS :=
  let title := stripWS rawTitle
  if title = "" then (none, fs)
  else createFile fs folder title date confirmOverwrite

/-- `publish_draft` (lines 578-613) for a chosen existing draft `name`
and an injected clock value `today`: recover the title, build the post
path `_posts/{today}-{slug}.md`, insert the date when missing, write the
post, delete the draft. -/
def publishDraft (fs : FS) (name today : String) : Option (String × FS) :=
  match fs.read ("_drafts/" ++ name) with
  | none => none
  | some content =>
    let postPath := "_posts/" ++ today ++ "-" ++ slugify (recoveredTitle content name) ++ ".md"
    let fs1 := fs.mkdir "_posts"
    some (postPath, (fs1.write postPath (publishContent content today)).delete ("_drafts/" ++ name))

/-- The new draft filename chosen by `unpublish_post` (lines 631-632):
`name.split('-', 3)[3]` when that split has at least 4 parts, else the
name unchanged. -/
def unpublishName (name : String) : String :=
  match splitMax '-' 3 name.data with
  | _ :: _ :: _ :: d :: _ => String.mk d
  | _ => name

/-- `unpublish_post` (lines 616-645) for a chosen existing post `name`:
strip the date prefix from the filename, write the content verbatim
under `_drafts`, delete the post. -/
def unpublishPost (fs : FS) (name : String) : Option (String × FS) :=
  match fs.read ("_posts/" ++ name) with
  | none => none
  | some content =>
    let newPath := "_drafts/" ++ unpublishName name
    let fs1 := fs.mkdir "_drafts"
    some (newPath, (fs1.write newPath content).delete ("_posts/" ++ name))

/-- Lexicographic code-point comparison of strings, as Python's
`sorted` orders them. -/
def lexLe : List Char → List Char → Bool
  | [], _ => true
  | _ :: _, [] => false
  | c :: cs, d :: ds =>
    if c.toNat < d.toNat then true
    else if c.toNat = d.toNat then lexLe cs ds
    else false

/-- Insertion into a sorted list of strings. -/
def insertSorted (s : String) : List String → List String
  | [] => [s]
  | t :: ts => if lexLe s.data t.data then s :: t :: ts else t :: insertSorted s ts

/-- `sorted(...)` on strings: insertion sort by code points; on
deduplicated input this is the unique sorted arrangement, so it agrees
with any correct sort. -/
def sortStrings : List String → List String
  | [] => []
  | s :: ss => insertSorted s (sortStrings ss)

/-- The reserved folder names excluded from collection discovery
(line 487). -/
def reservedDirs : List String :=
  ["_site", "_sass", "_layouts", "_includes", "_data"]

/-- `get_collections` (lines 481-489) as a function of the top-level
directory names under the root: the base names plus every unreserved
underscore directory with the underscore stripped, deduplicated and
sorted. -/
def getCollections (dirs : List String) : List String :=
  sortStrings ((["posts", "drafts", "pages"] ++
    (dirs.filter (fun d => "_".data.isPrefixOf d.data && !(decide (d ∈ reservedDirs)))).map
      (fun d => String.mk (d.data.drop 1))).dedup)

/-- The lines of the front-matter block per the spec's serialized form
(§4.2): when the text starts with the `---` delimiter line, the lines
strictly between it and the next `---` line; otherwise there is no
front matter. -/
def fmLines (content : String) : List (List Char) :=
  if "---\n".data.isPrefixOf content.data then
    (splitOnChar '\n' (content.data.drop 4)).takeWhile (fun line => !(line == "---".data))
  else []

/-- Whether the front matter of a serialized document contains a `date`
key (a `date:` line inside the front-matter block). -/
def fmHasDateKey (content : String) : Bool :=
  (fmLines content).any (fun line => "date:".data.isPrefixOf line)

/-- Whether the front matter contains a `title` key. -/
def fmHasTitleKey (content : String) : Bool :=
  (fmLines content).any (fun line => "title:".data.isPrefixOf line)

/-- `render(front_matter, body)` per the spec (§4.2): a `---` line, one
`key: value` line per entry in order, a `---` line, a blank line, then
the body verbatim. -/
def renderFrontMatter (pairs : List (String × String)) (body : String) : String :=
  "---\n" ++ String.join (pairs.map (fun kv => kv.1 ++ ": " ++ kv.2 ++ "\n")) ++ "---\n\n" ++ body


theorem char_toNat_ofNat_lt {n : Nat} (h : n < 55296) : (Char.ofNat n).toNat = n := by
  unfold Char.ofNat
  rw [dif_pos]
  · rfl
  · unfold Nat.isValidChar
    exact Or.inl h

theorem toLower_toLower (c : Char) : Char.toLower (Char.toLower c) = Char.toLower c := by
  by_cases h : c.toNat ≥ 65 ∧ c.toNat ≤ 90
  · have hv : (Char.ofNat (c.toNat + 32)).toNat = c.toNat + 32 :=
      char_toNat_ofNat_lt (by omega)
    simp only [Char.toLower, if_pos h, hv]
    rw [if_neg]
    omega
  · simp only [Char.toLower, if_neg h]

theorem mem_collapseSeps {c : Char} : ∀ {l : List Char}, c ∈ collapseSeps l →
    c = '-' ∨ (c ∈ l ∧ isSepChar c = false)
  | [], h => by simp [collapseSeps] at h
  | a :: as, h => by
    by_cases ha : isSepChar a
    · by_cases hh : (collapseSeps as).head? = some '-'
      · rw [collapseSeps, if_pos ha, if_pos hh] at h
        rcases mem_collapseSeps h with h1 | ⟨h1, h2⟩
        · exact Or.inl h1
        · exact Or.inr ⟨List.mem_cons_of_mem _ h1, h2⟩
      · rw [collapseSeps, if_pos ha, if_neg hh] at h
        rcases List.mem_cons.mp h with h1 | h1
        · exact Or.inl h1
        · rcases mem_collapseSeps h1 with h2 | ⟨h2, h3⟩
          · exact Or.inl h2
          · exact Or.inr ⟨List.mem_cons_of_mem _ h2, h3⟩
    · rw [collapseSeps, if_neg ha] at h
      rcases List.mem_cons.mp h with h1 | h1
      · subst h1
        exact Or.inr ⟨List.mem_cons_self _ _, by simpa using ha⟩
      · rcases mem_collapseSeps h1 with h2 | ⟨h2, h3⟩
        · exact Or.inl h2
        · exact Or.inr ⟨List.mem_cons_of_mem _ h2, h3⟩

/-- No two adjacent characters are both `[-\s]` separators. -/
def NoTwoSep (a b : Char) : Prop :=
  isSepChar a = false ∨ isSepChar b = false

theorem noTwoSep_symm {a b : Char} (h : NoTwoSep a b) : NoTwoSep b a := h.symm

theorem chain'_collapseSeps : ∀ l : List Char, (collapseSeps l).Chain' NoTwoSep
  | [] => by simp [collapseSeps]
  | a :: as => by
    by_cases ha : isSepChar a
    · by_cases hh : (collapseSeps as).head? = some '-'
      · rw [collapseSeps, if_pos ha, if_pos hh]
        exact chain'_collapseSeps as
      · rw [collapseSeps, if_pos ha, if_neg hh]
        refine List.chain'_cons'.mpr ⟨?_, chain'_collapseSeps as⟩
        intro y hy
        have hym : y ∈ collapseSeps as := List.mem_of_mem_head? hy
        rcases mem_collapseSeps hym with h1 | ⟨_, h2⟩
        · exact absurd (h1 ▸ hy) hh
        · exact Or.inr h2
    · rw [collapseSeps, if_neg ha]
      refine List.chain'_cons'.mpr ⟨?_, chain'_collapseSeps as⟩
      intro y _
      exact Or.inl (by simpa using ha)

theorem collapseSeps_eq_self : ∀ l : List Char,
    (∀ c ∈ l, isSepChar c = true → c = '-') → l.Chain' NoTwoSep →
    collapseSeps l = l
  | [], _, _ => rfl
  | a :: as, hall, hch => by
    have ih : collapseSeps as = as :=
      collapseSeps_eq_self as (fun c hc => hall c (List.mem_cons_of_mem _ hc))
        ((List.chain'_cons'.mp hch).2)
    by_cases ha : isSepChar a
    · have ha' : a = '-' := hall a (List.mem_cons_self _ _) ha
      have hh : (collapseSeps as).head? ≠ some '-' := by
        rw [ih]
        cases as with
        | nil => simp
        | cons b bs =>
          have hnb : NoTwoSep a b := by
            have := (List.chain'_cons'.mp hch).1
            exact this b (by simp)
          rcases hnb with h1 | h1
          · rw [ha'] at h1
            simp [isSepChar] at h1
          · simp only [List.head?_cons]
            intro hb
            injection hb with hb
            rw [hb] at h1
            simp [isSepChar] at h1
      rw [collapseSeps, if_pos ha, if_neg hh, ih, ha']
    · rw [collapseSeps, if_neg ha, ih]

theorem dropWhile_head?_false {p : Char → Bool} :
    ∀ {l : List Char} {a : Char}, (l.dropWhile p).head? = some a → p a = false
  | [], a, h => by simp [List.dropWhile] at h
  | b :: bs, a, h => by
    by_cases hb : p b
    · rw [List.dropWhile_cons_of_pos hb] at h
      exact dropWhile_head?_false h
    · rw [List.dropWhile_cons_of_neg hb] at h
      simp only [List.head?_cons, Option.some.injEq] at h
      subst h
      simpa using hb

theorem getLast?_dropWhile {p : Char → Bool} :
    ∀ l : List Char, l.dropWhile p ≠ [] → (l.dropWhile p).getLast? = l.getLast?
  | [], h => by simp [List.dropWhile] at h
  | b :: bs, h => by
    by_cases hb : p b
    · rw [List.dropWhile_cons_of_pos hb] at h ⊢
      have hbs : bs ≠ [] := by
        intro hbs
        rw [hbs] at h
        simp [List.dropWhile] at h
      rw [getLast?_dropWhile bs h]
      cases bs with
      | nil => exact absurd rfl hbs
      | cons c cs => rw [List.getLast?_cons_cons]
    · rw [List.dropWhile_cons_of_neg hb]

theorem pyStrip_getLast?_false {p : Char → Bool} {l : List Char} {a : Char}
    (h : (pyStrip p l).getLast? = some a) : p a = false := by
  unfold pyStrip at h
  rw [List.getLast?_reverse] at h
  exact dropWhile_head?_false h

theorem pyStrip_head?_false {p : Char → Bool} {l : List Char} {a : Char}
    (h : (pyStrip p l).head? = some a) : p a = false := by
  unfold pyStrip at h
  rw [List.head?_reverse] at h
  have hne : (l.dropWhile p).reverse.dropWhile p ≠ [] := by
    intro hnil
    rw [hnil] at h
    simp at h
  rw [getLast?_dropWhile _ hne, List.getLast?_reverse] at h
  exact dropWhile_head?_false h

theorem dropWhile_eq_self_of_head {p : Char → Bool} {l : List Char}
    (h : ∀ a, l.head? = some a → p a = false) : l.dropWhile p = l := by
  cases l with
  | nil => rfl
  | cons b bs =>
    have hb : p b = false := h b rfl
    rw [List.dropWhile_cons_of_neg (by simp [hb])]

theorem pyStrip_eq_self {p : Char → Bool} {l : List Char}
    (hh : ∀ a, l.head? = some a → p a = false)
    (hl : ∀ a, l.getLast? = some a → p a = false) : pyStrip p l = l := by
  unfold pyStrip
  rw [dropWhile_eq_self_of_head hh]
  rw [dropWhile_eq_self_of_head (by intro a ha; rw [List.head?_reverse] at ha; exact hl a ha)]
  exact List.reverse_reverse l

theorem mem_pyStrip {p : Char → Bool} {l : List Char} {a : Char}
    (h : a ∈ pyStrip p l) : a ∈ l := by
  unfold pyStrip at h
  rw [List.mem_reverse] at h
  have h2 := (List.dropWhile_sublist p).mem h
  rw [List.mem_reverse] at h2
  exact (List.dropWhile_sublist p).mem h2

theorem chain'_pyStrip {R : Char → Char → Prop} (hsymm : ∀ a b, R a b → R b a)
    {p : Char → Bool} {l : List Char} (h : l.Chain' R) : (pyStrip p l).Chain' R := by
  unfold pyStrip
  have h1 : (l.dropWhile p).Chain' R := h.suffix (List.dropWhile_suffix p)
  have h2 : (l.dropWhile p).reverse.Chain' R := by
    rw [List.chain'_reverse]
    exact h1.imp (fun a b hab => hsymm a b hab)
  have h3 : ((l.dropWhile p).reverse.dropWhile p).Chain' R :=
    h2.suffix (List.dropWhile_suffix p)
  rw [List.chain'_reverse]
  exact h3.imp (fun a b hab => hsymm a b hab)

theorem mem_slugifyChars {l : List Char} {c : Char} (h : c ∈ slugifyChars l) :
    Char.toLower c = c ∧ keepChar c = true := by
  unfold slugifyChars at h
  have h1 := mem_pyStrip h
  rcases mem_collapseSeps h1 with h2 | ⟨h2, h3⟩
  · subst h2
    exact ⟨by decide, by decide⟩
  · have h4 := List.mem_filter.mp h2
    rcases List.mem_map.mp h4.1 with ⟨a, _, ha⟩
    subst ha
    exact ⟨toLower_toLower a, h4.2⟩

theorem slugifyChars_idem (l : List Char) :
    slugifyChars (slugifyChars l) = slugifyChars l := by
  have h1 : (slugifyChars l).map Char.toLower = slugifyChars l := by
    rw [List.map_congr_left (fun a ha => (mem_slugifyChars ha).1)]
    exact List.map_id _
  have h2 : (slugifyChars l).filter keepChar = slugifyChars l :=
    List.filter_eq_self.mpr (fun a ha => (mem_slugifyChars ha).2)
  have h3 : collapseSeps (slugifyChars l) = slugifyChars l := by
    apply collapseSeps_eq_self
    · intro c hc hsep
      rcases mem_collapseSeps (mem_pyStrip hc) with h | ⟨_, h⟩
      · exact h
      · rw [h] at hsep
        exact absurd hsep (by simp)
    · exact chain'_pyStrip (fun a b => noTwoSep_symm) (chain'_collapseSeps _)
  have h4 : pyStrip isDashChar (slugifyChars l) = slugifyChars l := by
    apply pyStrip_eq_self
    · intro a ha
      exact pyStrip_head?_false ha
    · intro a ha
      exact pyStrip_getLast?_false ha
  conv_lhs => rw [slugifyChars, h1, h2, h3, h4]

theorem find?_filter_ne {l : List (String × String)} {p q : String} (h : q ≠ p) :
    (l.filter (fun e => !(e.1 == p))).find? (fun e => e.1 == q) =
      l.find? (fun e => e.1 == q) := by
  induction l with
  | nil => rfl
  | cons e es ih =>
    by_cases hp : (e.1 == p) = true
    · have hq : (e.1 == q) = false := by
        rw [beq_eq_false_iff_ne]
        intro hq'
        exact h (hq' ▸ beq_iff_eq.mp hp)
      rw [List.filter_cons_of_neg (by simp [hp])]
      simp only [List.find?_cons, hq]
      exact ih
    · rw [List.filter_cons_of_pos (by simpa using hp)]
      by_cases hq : (e.1 == q) = true
      · simp [List.find?_cons, hq]
      · simp only [List.find?_cons, (by simpa using hq : (e.1 == q) = false)]
        exact ih

theorem find?_filter_self (l : List (String × String)) (p : String) :
    (l.filter (fun e => !(e.1 == p))).find? (fun e => e.1 == p) = none := by
  induction l with
  | nil => rfl
  | cons e es ih =>
    by_cases hp : (e.1 == p) = true
    · rw [List.filter_cons_of_neg (by simp [hp])]
      exact ih
    · rw [List.filter_cons_of_pos (by simpa using hp)]
      simp only [List.find?_cons, (by simpa using hp : (e.1 == p) = false)]
      exact ih

theorem FS.read_write_self (fs : FS) (p c : String) : (fs.write p c).read p = some c := by
  unfold FS.read FS.write
  simp [List.find?_cons]

theorem FS.read_write_ne (fs : FS) {p q : String} (c : String) (h : q ≠ p) :
    (fs.write p c).read q = fs.read q := by
  unfold FS.read FS.write
  dsimp only
  have hpq : (p == q) = false := by
    rw [beq_eq_false_iff_ne]
    exact fun hh => h hh.symm
  simp only [List.find?_cons, hpq]
  rw [find?_filter_ne h]

theorem FS.read_delete_self (fs : FS) (p : String) : (fs.delete p).read p = none := by
  unfold FS.read FS.delete
  dsimp only
  rw [find?_filter_self]
  rfl

theorem FS.read_delete_ne (fs : FS) {p q : String} (h : q ≠ p) :
    (fs.delete p).read q = fs.read q := by
  unfold FS.read FS.delete
  dsimp only
  rw [find?_filter_ne h]

theorem FS.read_mkdir (fs : FS) (d p : String) : (fs.mkdir d).read p = fs.read p := by
  unfold FS.read FS.mkdir
  split <;> rfl

theorem FS.mem_dirs_mkdir (fs : FS) (d : String) : d ∈ (fs.mkdir d).dirs := by
  unfold FS.mkdir
  split
  · next h => exact h
  · exact List.mem_cons_self _ _

theorem FS.mkdir_eq_self {fs : FS} {d : String} (h : d ∈ fs.dirs) : fs.mkdir d = fs := by
  unfold FS.mkdir
  exact if_pos h

theorem FS.dirs_write (fs : FS) (p c : String) : (fs.write p c).dirs = fs.dirs := rfl

theorem FS.dirs_delete (fs : FS) (p : String) : (fs.delete p).dirs = fs.dirs := rfl

theorem posts_path_ne_drafts_path (a b : String) : "_posts/" ++ a ≠ "_drafts/" ++ b := by
  intro h
  have h2 : ('_' :: 'p' :: 'o' :: 's' :: 't' :: 's' :: '/' :: a.data)
      = ('_' :: 'd' :: 'r' :: 'a' :: 'f' :: 't' :: 's' :: '/' :: b.data) :=
    congrArg String.data h
  simp at h2

theorem drafts_path_ne_posts_path (a b : String) : "_drafts/" ++ a ≠ "_posts/" ++ b :=
  fun h => posts_path_ne_drafts_path b a h.symm

theorem splitOnChar_eq_cons (sep : Char) :
    ∀ l : List Char, ∃ t, splitOnChar sep l = (l.takeWhile (fun c => !(c == sep))) :: t
  | [] => ⟨[], rfl⟩
  | c :: cs => by
    by_cases hc : c = sep
    · refine ⟨splitOnChar sep cs, ?_⟩
      have hb : (c == sep) = true := beq_iff_eq.mpr hc
      simp [splitOnChar, if_pos hc, List.takeWhile_cons, hb]
    · obtain ⟨t, ht⟩ := splitOnChar_eq_cons sep cs
      refine ⟨t, ?_⟩
      have hb : (c == sep) = false := beq_eq_false_iff_ne.mpr hc
      simp only [splitOnChar, if_neg hc, ht, List.takeWhile_cons, hb]
      simp

theorem replaceFirstChars_of_isPrefixOf {old l : List Char} (new : List Char)
    (h : old.isPrefixOf l = true) :
    replaceFirstChars old new l = new ++ l.drop old.length := by
  cases l with
  | nil =>
    cases old with
    | nil => simp [replaceFirstChars]
    | cons o os => simp [List.isPrefixOf] at h
  | cons c cs =>
    simp only [replaceFirstChars, if_pos h]

theorem fmHasDateKey_insert (today : String) (rest : List Char) :
    fmHasDateKey (String.mk ('-' :: '-' :: '-' :: '\n' :: 'd' :: 'a' :: 't' :: 'e' :: ':' :: ' ' ::
      (today.data ++ '\n' :: rest))) = true := by
  unfold fmHasDateKey fmLines
  rw [if_pos (by simp +decide [List.isPrefixOf])]
  obtain ⟨t, ht⟩ := splitOnChar_eq_cons '\n'
    ('d' :: 'a' :: 't' :: 'e' :: ':' :: ' ' :: (today.data ++ '\n' :: rest))
  have hdrop : (String.mk ('-' :: '-' :: '-' :: '\n' :: 'd' :: 'a' :: 't' :: 'e' :: ':' :: ' ' ::
      (today.data ++ '\n' :: rest))).data.drop 4 =
      'd' :: 'a' :: 't' :: 'e' :: ':' :: ' ' :: (today.data ++ '\n' :: rest) := rfl
  rw [hdrop, ht]
  simp +decide [List.takeWhile_cons, List.isPrefixOf]

theorem insertSorted_perm (s : String) :
    ∀ l : List String, (insertSorted s l).Perm (s :: l)
  | [] => List.Perm.refl _
  | t :: ts => by
    unfold insertSorted
    split
    · exact List.Perm.refl _
    · exact ((insertSorted_perm s ts).cons t).trans (List.Perm.swap s t ts)

theorem sortStrings_perm : ∀ l : List String, (sortStrings l).Perm l
  | [] => List.Perm.refl _
  | s :: ss => by
    unfold sortStrings
    exact (insertSorted_perm s (sortStrings ss)).trans ((sortStrings_perm ss).cons s)

/-- C2 counterexample: the claim describes the removal step as deleting
every character that is not a letter, digit, underscore or whitespace;
the code's regex `[^\w\s-]` also keeps dashes.  On input `"a-b"` the
code yields `"a-b"` while the claimed steps yield `"ab"`. -/
theorem C2_counterexample :
    slugify "a-b" = "a-b" ∧ slugifySpecWords "a-b" = "ab" ∧
      slugify "a-b" ≠ slugifySpecWords "a-b" := by decide

/-- C2 (amended): with the removal step keeping the dash as well,
`slugify` performs exactly the specified steps (lower-case, remove,
collapse, trim) on every input, and `slugify "My First Post!"` equals
`"my-first-post"`. -/
theorem C2_slugify_steps :
    (∀ s : String, slugify s = slugifySpecAmended s) ∧
      slugify "My First Post!" = "my-first-post" := by
  refine ⟨fun s => ?_, by decide⟩
  unfold slugify slugifySpecAmended slugifyChars
  have hk : ∀ c ∈ s.data.map Char.toLower, keepChar c = keepCharAmended c := by
    intro c _
    unfold keepChar keepCharAmended isWordChar
    cases c.isAlphanum <;> cases c == '_' <;> cases isSpaceChar c <;> cases c == '-' <;> rfl
  rw [List.filter_congr hk]

/-- C9: `slugify` is idempotent. -/
theorem C9_slugify_idempotent (s : String) : slugify (slugify s) = slugify s := by
  unfold slugify
  exact congrArg String.mk (slugifyChars_idem s.data)

/-- C9 witness: idempotence at a concrete input. -/
theorem C9_slugify_idempotent_witness :
    slugify (slugify "My First Post!") = slugify "My First Post!" :=
  C9_slugify_idempotent "My First Post!"

/-- C7: when the target of `create_file` already exists and the caller
declines the overwrite confirmation, the operation returns no created
path and leaves the file system unchanged. -/
theorem C7_create_decline (fs : FS) (folder title : String) (date : Option String)
    (hdir : folder ∈ fs.dirs)
    (hexists : (fs.read (folder ++ "/" ++ createFileName title date)).isSome = true) :
    createFile fs folder title date false = (none, fs) := by
  unfold createFile
  rw [FS.mkdir_eq_self hdir]
  simp [hexists]

/-- C7 witness: declining the overwrite of an existing target is a
no-op. -/
theorem C7_create_decline_witness :
    "_posts" ∈ (FS.mk ["_posts"] [("_posts/2024-01-05-launch-day.md", "old")]).dirs ∧
    ((FS.mk ["_posts"] [("_posts/2024-01-05-launch-day.md", "old")]).read
      ("_posts" ++ "/" ++ createFileName "Launch Day" (some "2024-01-05"))).isSome = true ∧
    createFile (FS.mk ["_posts"] [("_posts/2024-01-05-launch-day.md", "old")])
        "_posts" "Launch Day" (some "2024-01-05") false =
      (none, FS.mk ["_posts"] [("_posts/2024-01-05-launch-day.md", "old")]) :=
  ⟨by decide, by decide,
    C7_create_decline _ "_posts" "Launch Day" (some "2024-01-05") (by decide) (by decide)⟩

/-- C10: `create_file` embeds any non-empty date string verbatim and
unchecked into the filename and the `date:` front-matter line. -/
theorem C10_date_unvalidated (fs : FS) (folder title d : String) (hd : d ≠ "") :
    ∃ fs1, createFile fs folder title (some d) true =
        (some (folder ++ "/" ++ (d ++ "-" ++ slugify title ++ ".md")), fs1) ∧
      fs1.read (folder ++ "/" ++ (d ++ "-" ++ slugify title ++ ".md")) =
        some ("---\ntitle: " ++ title ++ "\n" ++ ("date: " ++ d ++ "\n") ++ "---\n\n") := by
  have htr : truthy (some d) = some d := by simp [truthy, hd]
  have hname : createFileName title (some d) = d ++ "-" ++ slugify title ++ ".md" := by
    unfold createFileName
    rw [htr]
  have hcontent : createContent title (some d) =
      "---\ntitle: " ++ title ++ "\n" ++ ("date: " ++ d ++ "\n") ++ "---\n\n" := by
    unfold createContent
    rw [htr]
  refine ⟨(fs.mkdir folder).write (folder ++ "/" ++ createFileName title (some d))
      (createContent title (some d)), ?_, ?_⟩
  · unfold createFile
    rw [hname]
    simp
  · rw [← hname, FS.read_write_self, hcontent]

/-- C10 witness: a date that is not of the form YYYY-MM-DD is accepted
and lands verbatim in the filename and the front matter. -/
theorem C10_date_unvalidated_witness :
    ("not-a-date" : String) ≠ "" ∧
    ∃ fs1, createFile (FS.mk [] []) "_posts" "Launch Day" (some "not-a-date") true =
        (some ("_posts" ++ "/" ++ ("not-a-date" ++ "-" ++ slugify "Launch Day" ++ ".md")), fs1) ∧
      fs1.read ("_posts" ++ "/" ++ ("not-a-date" ++ "-" ++ slugify "Launch Day" ++ ".md")) =
        some ("---\ntitle: " ++ "Launch Day" ++ "\n" ++ ("date: " ++ "not-a-date" ++ "\n") ++ "---\n\n") :=
  ⟨by decide, C10_date_unvalidated (FS.mk [] []) "_posts" "Launch Day" "not-a-date" (by decide)⟩

/-- C3 (amended): an empty or whitespace-only title is rejected by the
form handler with no file-system change; but a title whose derived slug
is empty is NOT rejected — any title that is non-empty after trimming
leads to a created file, named `{date}-.md` (or `.md`) when the slug is
empty. -/
theorem C3_title_validation (fs : FS) (folder rawTitle : String) (date : Option String)
    (ok : Bool) (hempty : stripWS rawTitle = "") :
    handleFormSubmit fs folder rawTitle date ok = (none, fs) ∧
    ∀ fs2 title2, stripWS title2 ≠ "" →
      (handleFormSubmit fs2 folder title2 date true).1 =
        some (folder ++ "/" ++ createFileName (stripWS title2) date) := by
  constructor
  · unfold handleFormSubmit
    rw [if_pos hempty]
  · intro fs2 title2 h2
    unfold handleFormSubmit createFile
    rw [if_neg h2]
    simp

/-- C3 counterexample: the title `"!!!"` is non-empty after trimming but
has an empty slug; the creation operation does not reject it — it
creates `_posts/2024-01-05-.md`. -/
theorem C3_counterexample :
    stripWS "!!!" ≠ "" ∧ slugify "!!!" = "" ∧
    (handleFormSubmit (FS.mk [] []) "_posts" "!!!" (some "2024-01-05") true).1 =
      some "_posts/2024-01-05-.md" ∧
    ((handleFormSubmit (FS.mk [] []) "_posts" "!!!" (some "2024-01-05") true).2.read
      "_posts/2024-01-05-.md").isSome = true := by decide

/-- C6: `create_file` (with confirmation granted when asked) creates
exactly the file `{date}-{slug}.md` (date truthy) or `{slug}.md` (no
date) inside the folder, creating the folder if absent; the written text
is the §4.2 rendering of a front matter holding `title` always and
`date` exactly when supplied, with an empty body. -/
theorem C6_create (fs : FS) (folder title : String) (date : Option String)
    (htitle : title ≠ "") :
    ∃ fs1, createFile fs folder title date true =
        (some (folder ++ "/" ++ createFileName title date), fs1) ∧
      folder ∈ fs1.dirs ∧
      fs1.read (folder ++ "/" ++ createFileName title date) = some (createContent title date) ∧
      (∀ d, truthy date = some d →
        createFileName title date = d ++ "-" ++ slugify title ++ ".md" ∧
        createContent title date = renderFrontMatter [("title", title), ("date", d)] "") ∧
      (truthy date = none →
        createFileName title date = slugify title ++ ".md" ∧
        createContent title date = renderFrontMatter [("title", title)] "") := by
  refine ⟨(fs.mkdir folder).write (folder ++ "/" ++ createFileName title date)
      (createContent title date), ?_, ?_, ?_, ?_, ?_⟩
  · unfold createFile
    simp
  · exact FS.mem_dirs_mkdir fs folder
  · exact FS.read_write_self _ _ _
  · intro d hd
    refine ⟨by unfold createFileName; rw [hd], ?_⟩
    unfold createContent renderFrontMatter
    rw [hd]
    apply String.ext
    simp only [String.data_append, String.join, List.map, List.foldl]
    simp +decide [List.append_assoc]
  · intro hd
    refine ⟨by unfold createFileName; rw [hd], ?_⟩
    unfold createContent renderFrontMatter
    rw [hd]
    apply String.ext
    simp only [String.data_append, String.join, List.map, List.foldl]
    simp +decide [List.append_assoc]

/-- C6 witness: the spec's example `create(root, "_posts", "Launch Day",
date=2024-01-05)`. -/
theorem C6_create_witness :
    ("Launch Day" : String) ≠ "" ∧
    ∃ fs1, createFile (FS.mk [] []) "_posts" "Launch Day" (some "2024-01-05") true =
        (some ("_posts" ++ "/" ++ createFileName "Launch Day" (some "2024-01-05")), fs1) ∧
      "_posts" ∈ fs1.dirs ∧
      fs1.read ("_posts" ++ "/" ++ createFileName "Launch Day" (some "2024-01-05")) =
        some (createContent "Launch Day" (some "2024-01-05")) ∧
      (∀ d, truthy (some "2024-01-05") = some d →
        createFileName "Launch Day" (some "2024-01-05") = d ++ "-" ++ slugify "Launch Day" ++ ".md" ∧
        createContent "Launch Day" (some "2024-01-05") =
          renderFrontMatter [("title", "Launch Day"), ("date", d)] "") ∧
      (truthy (some "2024-01-05") = none →
        createFileName "Launch Day" (some "2024-01-05") = slugify "Launch Day" ++ ".md" ∧
        createContent "Launch Day" (some "2024-01-05") = renderFrontMatter [("title", "Launch Day")] "") :=
  ⟨by decide, C6_create (FS.mk [] []) "_posts" "Launch Day" (some "2024-01-05") (by decide)⟩

/-- C8: `get_collections` returns a deduplicated list whose members are
exactly `posts`, `drafts`, `pages` and the underscore-stripped names of
the non-reserved top-level `_`-directories. -/
theorem C8_collections (dirs : List String) :
    (getCollections dirs).Nodup ∧
    ∀ x, x ∈ getCollections dirs ↔
      (x = "posts" ∨ x = "drafts" ∨ x = "pages" ∨
        ∃ d ∈ dirs, "_".data.isPrefixOf d.data = true ∧ d ∉ reservedDirs ∧
          x = String.mk (d.data.drop 1)) := by
  unfold getCollections
  constructor
  · exact (sortStrings_perm _).nodup_iff.mpr (List.nodup_dedup _)
  · intro x
    rw [(sortStrings_perm _).mem_iff, List.mem_dedup]
    simp only [List.mem_append, List.mem_cons, List.not_mem_nil, or_false, List.mem_map,
      List.mem_filter, Bool.and_eq_true, Bool.not_eq_true', decide_eq_false_iff_not]
    tauto

/-- C8 witness: the spec's example, with `_site` excluded. -/
theorem C8_collections_witness :
    getCollections ["_posts", "_drafts", "_pages", "_recipes", "_site"] =
      ["drafts", "pages", "posts", "recipes"] ∧
    ∀ x, x ∈ getCollections ["_posts", "_drafts", "_pages", "_recipes", "_site"] ↔
      (x = "posts" ∨ x = "drafts" ∨ x = "pages" ∨
        ∃ d ∈ ["_posts", "_drafts", "_pages", "_recipes", "_site"],
          "_".data.isPrefixOf d.data = true ∧ d ∉ reservedDirs ∧
            x = String.mk (d.data.drop 1)) :=
  ⟨by decide, (C8_collections ["_posts", "_drafts", "_pages", "_recipes", "_site"]).2⟩

/-- C1 counterexample: a draft whose front matter has `title` and
`update` keys but no `date` key.  The substring check `'date:' in
content` matches inside `update:`, so the code inserts nothing and the
published file's front matter does not end up containing a `date` key —
and under the substring reading of the claim, nothing is inserted after
the opening `---` line either. -/
theorem C1_counterexample :
    (publishDraft
        (FS.mk ["_drafts"] [("_drafts/my-draft.md", "---\ntitle: T\nupdate: soon\n---\n\nbody")])
        "my-draft.md" "2024-03-01").map
      (fun r => (r.2.read r.1).map (fun c => (c, fmHasDateKey c))) =
      some (some ("---\ntitle: T\nupdate: soon\n---\n\nbody", false)) := by decide

/-- C1 (amended): `publish_draft` checks for the substring `date:`
anywhere in the draft's content; when absent it inserts `date: {today}`
right after the first `---` line (if one exists), and when present —
even inside another word such as `update:` — it leaves the content
untouched, so the published front matter need not contain a `date` key. -/
theorem C1_publish_date_key (fs : FS) (name today content : String)
    (hread : fs.read ("_drafts/" ++ name) = some content) :
    ∃ fs1, publishDraft fs name today =
        some ("_posts/" ++ today ++ "-" ++ slugify (recoveredTitle content name) ++ ".md", fs1) ∧
      fs1.read ("_posts/" ++ today ++ "-" ++ slugify (recoveredTitle content name) ++ ".md") =
        some (publishContent content today) ∧
      (isSubChars "date:".data content.data = true → publishContent content today = content) ∧
      (∀ rest : List Char, content.data = '-' :: '-' :: '-' :: '\n' :: rest →
        isSubChars "date:".data content.data = false →
          publishContent content today =
            String.mk ('-' :: '-' :: '-' :: '\n' :: 'd' :: 'a' :: 't' :: 'e' :: ':' :: ' ' ::
              (today.data ++ '\n' :: rest)) ∧
          fmHasDateKey (publishContent content today) = true) := by
  have hpathne : ("_posts/" ++ today ++ "-" ++ slugify (recoveredTitle content name) ++ ".md")
      ≠ "_drafts/" ++ name := by
    have hassoc : "_posts/" ++ today ++ "-" ++ slugify (recoveredTitle content name) ++ ".md"
        = "_posts/" ++ (today ++ "-" ++ slugify (recoveredTitle content name) ++ ".md") := by
      simp [String.append_assoc]
    rw [hassoc]
    exact posts_path_ne_drafts_path _ _
  refine ⟨((fs.mkdir "_posts").write
      ("_posts/" ++ today ++ "-" ++ slugify (recoveredTitle content name) ++ ".md")
      (publishContent content today)).delete ("_drafts/" ++ name), ?_, ?_, ?_, ?_⟩
  · unfold publishDraft
    rw [hread]
  · rw [FS.read_delete_ne _ hpathne]
    exact FS.read_write_self _ _ _
  · intro hsub
    unfold publishContent
    rw [if_pos hsub]
  · intro rest hrest hnosub
    have hpc : publishContent content today =
        String.mk ('-' :: '-' :: '-' :: '\n' :: 'd' :: 'a' :: 't' :: 'e' :: ':' :: ' ' ::
          (today.data ++ '\n' :: rest)) := by
      unfold publishContent
      rw [if_neg (by simp [hnosub])]
      congr 1
      rw [replaceFirstChars_of_isPrefixOf _ (by rw [hrest]; simp +decide [List.isPrefixOf]), hrest]
      simp +decide [String.data_append, List.append_assoc]
    refine ⟨hpc, ?_⟩
    rw [hpc]
    exact fmHasDateKey_insert today rest

/-- C1 witness: the spec's example — a draft with a `title:` line and no
`date:` substring, published with the clock fixed at 2024-03-01, yields
`_posts/2024-03-01-my-draft.md` with an injected `date: 2024-03-01`
line. -/
theorem C1_publish_date_key_witness :
    ∃ fs1, publishDraft
        (FS.mk ["_drafts"] [("_drafts/my-draft.md", "---\ntitle: My Draft\n---\n\nHello\n")])
        "my-draft.md" "2024-03-01" = some ("_posts/2024-03-01-my-draft.md", fs1) ∧
      fs1.read "_posts/2024-03-01-my-draft.md" =
        some "---\ndate: 2024-03-01\ntitle: My Draft\n---\n\nHello\n" ∧
      fmHasDateKey "---\ndate: 2024-03-01\ntitle: My Draft\n---\n\nHello\n" = true := by
  obtain ⟨fs1, h1, h2, _, h4⟩ := C1_publish_date_key
    (FS.mk ["_drafts"] [("_drafts/my-draft.md", "---\ntitle: My Draft\n---\n\nHello\n")])
    "my-draft.md" "2024-03-01" "---\ntitle: My Draft\n---\n\nHello\n" (by decide)
  obtain ⟨h5, _⟩ := h4 "title: My Draft\n---\n\nHello\n".data (by decide) (by decide)
  have hp : ("_posts/" ++ "2024-03-01" ++ "-" ++
      slugify (recoveredTitle "---\ntitle: My Draft\n---\n\nHello\n" "my-draft.md") ++ ".md" : String)
      = "_posts/2024-03-01-my-draft.md" := by decide
  rw [hp] at h1 h2
  rw [h5] at h2
  refine ⟨fs1, h1, h2.trans (congrArg some (by decide)), by decide⟩

/-- C4: `publish_draft` recovers the title from the `title:` regex match
(trimmed, quotes stripped) or else the filename's stem, writes the new
post at `_posts/{today}-{slugify(title)}.md`, and deletes the draft, so
the draft path no longer resolves. -/
theorem C4_publish_moves (fs : FS) (name today content : String)
    (hread : fs.read ("_drafts/" ++ name) = some content) :
    ∃ fs1, publishDraft fs name today =
        some ("_posts/" ++ today ++ "-" ++ slugify (recoveredTitle content name) ++ ".md", fs1) ∧
      fs1.read ("_drafts/" ++ name) = none ∧
      fs1.read ("_posts/" ++ today ++ "-" ++ slugify (recoveredTitle content name) ++ ".md") =
        some (publishContent content today) ∧
      (∀ v, findTitleValue content.data = some v →
        recoveredTitle content name = String.mk (pyStrip isQuoteChar (pyStrip isSpaceChar v))) ∧
      (findTitleValue content.data = none →
        recoveredTitle content name = String.mk (stemChars name.data)) := by
  have hpathne : ("_posts/" ++ today ++ "-" ++ slugify (recoveredTitle content name) ++ ".md")
      ≠ "_drafts/" ++ name := by
    have hassoc : "_posts/" ++ today ++ "-" ++ slugify (recoveredTitle content name) ++ ".md"
        = "_posts/" ++ (today ++ "-" ++ slugify (recoveredTitle content name) ++ ".md") := by
      simp [String.append_assoc]
    rw [hassoc]
    exact posts_path_ne_drafts_path _ _
  refine ⟨((fs.mkdir "_posts").write
      ("_posts/" ++ today ++ "-" ++ slugify (recoveredTitle content name) ++ ".md")
      (publishContent content today)).delete ("_drafts/" ++ name), ?_, ?_, ?_, ?_, ?_⟩
  · unfold publishDraft
    rw [hread]
  · exact FS.read_delete_self _ _
  · rw [FS.read_delete_ne _ hpathne]
    exact FS.read_write_self _ _ _
  · intro v hv
    unfold recoveredTitle
    rw [hv]
  · intro hv
    unfold recoveredTitle
    rw [hv]

/-- C4 witness: publishing a draft whose content quotes its title. -/
theorem C4_publish_moves_witness :
    ∃ fs1, publishDraft
        (FS.mk ["_drafts"] [("_drafts/my-draft.md", "---\ntitle: 'My Draft'\n---\n\nHello\n")])
        "my-draft.md" "2024-03-01" = some ("_posts/2024-03-01-my-draft.md", fs1) ∧
      fs1.read "_drafts/my-draft.md" = none := by
  obtain ⟨fs1, h1, h2, _, _, _⟩ := C4_publish_moves
    (FS.mk ["_drafts"] [("_drafts/my-draft.md", "---\ntitle: 'My Draft'\n---\n\nHello\n")])
    "my-draft.md" "2024-03-01" "---\ntitle: 'My Draft'\n---\n\nHello\n" (by decide)
  have hp : ("_posts/" ++ "2024-03-01" ++ "-" ++
      slugify (recoveredTitle "---\ntitle: 'My Draft'\n---\n\nHello\n" "my-draft.md") ++ ".md" : String)
      = "_posts/2024-03-01-my-draft.md" := by decide
  rw [hp] at h1
  exact ⟨fs1, h1, h2⟩

/-- C5: `unpublish_post` strips the date prefix by splitting the
filename on `-` into at most 4 parts (keeping it unchanged when fewer
than 4 parts exist), writes the content verbatim under `_drafts`
(creating it if absent), and deletes the original post. -/
theorem C5_unpublish (fs : FS) (name content : String)
    (hread : fs.read ("_posts/" ++ name) = some content) :
    ∃ fs1, unpublishPost fs name = some ("_drafts/" ++ unpublishName name, fs1) ∧
      fs1.read ("_drafts/" ++ unpublishName name) = some content ∧
      fs1.read ("_posts/" ++ name) = none ∧
      "_drafts" ∈ fs1.dirs ∧
      (∀ a b c d t, splitMax '-' 3 name.data = a :: b :: c :: d :: t →
        unpublishName name = String.mk d) ∧
      ((splitMax '-' 3 name.data).length < 4 → unpublishName name = name) := by
  refine ⟨((fs.mkdir "_drafts").write ("_drafts/" ++ unpublishName name) content).delete
      ("_posts/" ++ name), ?_, ?_, ?_, ?_, ?_, ?_⟩
  · unfold unpublishPost
    rw [hread]
  · rw [FS.read_delete_ne _ (drafts_path_ne_posts_path _ _)]
    exact FS.read_write_self _ _ _
  · exact FS.read_delete_self _ _
  · exact FS.mem_dirs_mkdir fs "_drafts"
  · intro a b c d t h
    unfold unpublishName
    rw [h]
  · intro hlen
    unfold unpublishName
    rcases hsp : splitMax '-' 3 name.data with _ | ⟨a, _ | ⟨b, _ | ⟨c, _ | ⟨d, t⟩⟩⟩⟩
    · rfl
    · rfl
    · rfl
    · rfl
    · exfalso
      rw [hsp] at hlen
      simp [List.length_cons] at hlen
      omega

/-- C5 witness: `unpublish(root, "2024-03-01-my-draft.md")` produces
`_drafts/my-draft.md` with identical content and removes the post. -/
theorem C5_unpublish_witness :
    ∃ fs1, unpublishPost
        (FS.mk ["_posts"] [("_posts/2024-03-01-my-draft.md", "---\ntitle: X\n---\n\nB")])
        "2024-03-01-my-draft.md" = some ("_drafts/" ++ unpublishName "2024-03-01-my-draft.md", fs1) ∧
      fs1.read ("_drafts/" ++ unpublishName "2024-03-01-my-draft.md") =
        some "---\ntitle: X\n---\n\nB" ∧
      fs1.read ("_posts/" ++ "2024-03-01-my-draft.md") = none ∧
      "_drafts" ∈ fs1.dirs ∧
      (∀ a b c d t, splitMax '-' 3 ("2024-03-01-my-draft.md" : String).data = a :: b :: c :: d :: t →
        unpublishName "2024-03-01-my-draft.md" = String.mk d) ∧
      ((splitMax '-' 3 ("2024-03-01-my-draft.md" : String).data).length < 4 →
        unpublishName "2024-03-01-my-draft.md" = "2024-03-01-my-draft.md") :=
  C5_unpublish (FS.mk ["_posts"] [("_posts/2024-03-01-my-draft.md", "---\ntitle: X\n---\n\nB")])
    "2024-03-01-my-draft.md" "---\ntitle: X\n---\n\nB" (by decide)

/-- C3 witness: a whitespace-only title is a validated no-op. -/
theorem C3_title_validation_witness :
    stripWS "   " = "" ∧
    (handleFormSubmit (FS.mk [] []) "_drafts" "   " none false = (none, FS.mk [] []) ∧
     ∀ fs2 title2, stripWS title2 ≠ "" →
       (handleFormSubmit fs2 "_drafts" title2 none true).1 =
         some ("_drafts" ++ "/" ++ createFileName (stripWS title2) none)) :=
  ⟨by decide, C3_title_validation (FS.mk [] []) "_drafts" "   " none false (by decide)⟩

end JekyllCompose
